import Mathlib

/-!
Shallow embedding of the CSV cleaning-and-aggregation pipeline of
`src/server.js` (CSV Data Processing & Visualization Engine).

Raw CSV cell values are modelled as `Option String`: `none` is a value that
is absent (`undefined` in the source, e.g. the column was not in the header
row), `some s` is the raw text produced by the CSV parsing collaborator.
JS numbers are modelled as rationals `ℚ`; the properties verified here are
structural (guards, nulls, counts, ordering) and do not depend on binary
floating-point rounding.
-/

namespace CsvEngine

/-! ### JS string primitives

`String.prototype.trim` and `String.prototype.toLowerCase` (for the ASCII
range the data uses), and `slice`, modelled directly over the character
list of a string. -/

def jsTrimList (l : List Char) : List Char :=
  ((l.dropWhile Char.isWhitespace).reverse.dropWhile Char.isWhitespace).reverse

/-- JS `s.trim()`. -/
def jsTrim (s : String) : String := ⟨jsTrimList s.data⟩

def jsLowerChar (c : Char) : Char :=
  if 'A' ≤ c ∧ c ≤ 'Z' then Char.ofNat (c.toNat + 32) else c

/-- JS `s.toLowerCase()` (ASCII case mapping). -/
def jsToLower (s : String) : String := ⟨s.data.map jsLowerChar⟩

/-- JS `s.slice(0, n)`. -/
def jsSlice (s : String) (n : Nat) : String := ⟨s.data.take n⟩

/-! ### JS `Number(string)` conversion, restricted to finite results

`jsNumberFinite s` returns `some q` when the ECMAScript `Number(s)`
conversion yields a finite number `q`, and `none` when it yields `NaN` or
an infinity.  The grammar implemented is the `StringNumericLiteral` one:
optional surrounding whitespace, empty string gives 0, an optionally
signed decimal literal (digits, optional fraction, optional exponent) or
`Infinity`, and unsigned radix literals `0x`/`0o`/`0b`. -/

def digitsToNat (l : List Char) : Nat :=
  l.foldl (fun a c => a * 10 + (c.toNat - 48)) 0

/-- Parse the optional exponent tail of a decimal literal: either empty, or
`e`/`E` followed by an optional sign and at least one digit. -/
def parseExpTail (l : List Char) : Option Int :=
  match l with
  | [] => some 0
  | c :: rest =>
    if c = 'e' ∨ c = 'E' then
      match rest with
      | '+' :: ds =>
        if ds ≠ [] ∧ ds.all Char.isDigit then some (digitsToNat ds) else none
      | '-' :: ds =>
        if ds ≠ [] ∧ ds.all Char.isDigit then some (-(digitsToNat ds : Int)) else none
      | ds =>
        if ds ≠ [] ∧ ds.all Char.isDigit then some (digitsToNat ds) else none
    else none

/-- Scale a rational by an integer power of ten. -/
def scalePow10 (q : ℚ) (e : Int) : ℚ :=
  if 0 ≤ e then q * (10 : ℚ) ^ e.toNat else q / (10 : ℚ) ^ (-e).toNat

/-- Parse an unsigned decimal literal `digits [. digits] [exp]`,
`. digits [exp]` — at least one digit overall. -/
def parseDecimalBody (l : List Char) : Option ℚ :=
  let ip := l.takeWhile Char.isDigit
  let rest := l.drop ip.length
  match rest with
  | '.' :: rest2 =>
    let fp := rest2.takeWhile Char.isDigit
    let rest3 := rest2.drop fp.length
    if ip = [] ∧ fp = [] then none
    else
      match parseExpTail rest3 with
      | none => none
      | some e =>
        some (scalePow10 ((digitsToNat ip : ℚ) + (digitsToNat fp : ℚ) / (10 : ℚ) ^ fp.length) e)
  | _ =>
    if ip = [] then none
    else
      match parseExpTail rest with
      | none => none
      | some e => some (scalePow10 (digitsToNat ip : ℚ) e)

/-- Parse an unsigned radix literal body (after `0x`/`0o`/`0b`). -/
def parseRadixBody (ds : List Char) (radix : Nat) (isD : Char → Bool) (valD : Char → Nat) :
    Option ℚ :=
  if ds ≠ [] ∧ ds.all isD then
    some ((ds.foldl (fun a c => a * radix + valD c) 0 : Nat) : ℚ)
  else none

def hexDigitVal (c : Char) : Nat :=
  if '0' ≤ c ∧ c ≤ '9' then c.toNat - 48
  else if 'a' ≤ c ∧ c ≤ 'f' then c.toNat - 87
  else if 'A' ≤ c ∧ c ≤ 'F' then c.toNat - 55
  else 0

def isHexDigit (c : Char) : Bool :=
  ('0' ≤ c ∧ c ≤ '9') ∨ ('a' ≤ c ∧ c ≤ 'f') ∨ ('A' ≤ c ∧ c ≤ 'F')

def isOctDigit (c : Char) : Bool := '0' ≤ c ∧ c ≤ '7'

def isBinDigit (c : Char) : Bool := c = '0' ∨ c = '1'

/-- A signed decimal literal or `Infinity`; `none` for `NaN` and for the
infinities (the caller only keeps finite results). -/
def parseSignedBody (sign : ℚ) (l : List Char) : Option ℚ :=
  if l = "Infinity".data then none
  else (parseDecimalBody l).map (fun q => sign * q)

def jsNumberFinite (s : String) : Option ℚ :=
  match (jsTrim s).data with
  | [] => some 0
  | '0' :: 'x' :: ds => parseRadixBody ds 16 isHexDigit hexDigitVal
  | '0' :: 'X' :: ds => parseRadixBody ds 16 isHexDigit hexDigitVal
  | '0' :: 'o' :: ds => parseRadixBody ds 8 isOctDigit (fun c => c.toNat - 48)
  | '0' :: 'O' :: ds => parseRadixBody ds 8 isOctDigit (fun c => c.toNat - 48)
  | '0' :: 'b' :: ds => parseRadixBody ds 2 isBinDigit (fun c => c.toNat - 48)
  | '0' :: 'B' :: ds => parseRadixBody ds 2 isBinDigit (fun c => c.toNat - 48)
  | '+' :: rest => parseSignedBody 1 rest
  | '-' :: rest => parseSignedBody (-1) rest
  | l => parseSignedBody 1 l

/-! ### Field normalizers (`src/server.js` lines 17-58) -/

/-- `normalizeHeader` (line 17): trim and lower-case a header cell. -/
def normalizeHeader (h : Option String) : String :=
  jsToLower (jsTrim (h.getD ""))

/-- `parseNumber` (lines 21-30): null/undefined → null; trim; empty → null;
strip `$ £ € ,`; convert with `Number`; keep only finite results. -/
def parseNumber (v : Option String) : Option ℚ :=
  match v with
  | none => none
  | some str =>
    let s := jsTrim str
    if s = "" then none
    else
      let cleaned : String := ⟨s.data.filter (fun c => c ∉ (['$', '£', '€', ','] : List Char))⟩
      jsNumberFinite cleaned

def trueTokens : List String := ["true", "t", "yes", "y", "1", "in stock", "instock"]

def falseTokens : List String := ["false", "f", "no", "n", "0", "out of stock", "oos"]

/-- `parseBoolean` (lines 32-39): null/undefined → null; trim + lower-case;
empty → null; recognised true/false token sets; anything else → null
(the `// unrecognized` branch returns `null`, not a separate value). -/
def parseBoolean (v : Option String) : Option Bool :=
  match v with
  | none => none
  | some str =>
    let s := jsToLower (jsTrim str)
    if s = "" then none
    else if s ∈ trueTokens then some true
    else if s ∈ falseTokens then some false
    else none

/-- The regex `^(\d{4})-(\d{2})-(\d{2})$` of `parseDateISO` (line 48). -/
def isISODateShape (s : String) : Bool :=
  match s.data with
  | [y1, y2, y3, y4, d1, m1, m2, d2, a1, a2] =>
    y1.isDigit ∧ y2.isDigit ∧ y3.isDigit ∧ y4.isDigit ∧ d1 = '-' ∧
    m1.isDigit ∧ m2.isDigit ∧ d2 = '-' ∧ a1.isDigit ∧ a2.isDigit
  | _ => false

/-- `parseDateISO` (lines 41-58): null/undefined → null; trim; empty → null;
an exact `YYYY-MM-DD` match is returned as-is; otherwise the source falls
back to the environment-dependent `Date.parse` (reformatting a successful
parse to `YYYY-MM-DD`), which is modelled by the abstract function
`fallback : String → Option String`. -/
def parseDateISO (fallback : String → Option String) (v : Option String) : Option String :=
  match v with
  | none => none
  | some str =>
    let s := jsTrim str
    if s = "" then none
    else if isISODateShape s then some s
    else fallback s

/-! ### Row cleaner (`src/server.js` lines 68-87) -/

/-- One parsed CSV record: normalized column name → raw text, `none` when
the column is absent from the record (JS `undefined`). -/
structure RawRecord where
  product : Option String
  price : Option String
  rating : Option String
  instock : Option String
  review : Option String
  launch_date : Option String
deriving Repr, DecidableEq

/-- One typed row produced by `cleanRow`. -/
structure CleanedRow where
  product : Option String
  price : Option ℚ
  rating : Option ℚ
  instock : Option Bool
  review : Option String
  launch_date : Option String
deriving Repr, DecidableEq

/-- `String(x ?? "").trim() || null` as used for `product` (line 71):
the JS `||` yields `null` exactly when the trimmed string is empty. -/
def jsTrimOrNull (v : Option String) : Option String :=
  let s := jsTrim (v.getD "")
  if s = "" then none else some s

/-- `cleanRow` (lines 68-87): apply the four normalizers; `review` is
trimmed only when the column value is present (`row.review !== undefined`),
with no empty-to-null coercion; then clamp a non-null rating to [0,5]. -/
def cleanRow (fallback : String → Option String) (row : RawRecord) : CleanedRow :=
  let rating0 := parseNumber row.rating
  let rating :=
    match rating0 with
    | none => none
    | some r => some (if r < 0 then 0 else if r > 5 then 5 else r)
  { product := jsTrimOrNull row.product
    price := parseNumber row.price
    rating := rating
    instock := parseBoolean row.instock
    review :=
      match row.review with
      | none => none
      | some s => some (jsTrim s)
    launch_date := parseDateISO fallback row.launch_date }

/-! ### Aggregator (`src/server.js` lines 89-199)

The JS `Map`s (`productCounts`, `monthAcc`) are modelled as association
lists in insertion order: `Map.get` finds the first matching key,
`Map.set` updates an existing key in place or appends a new one. -/

def mapGet (m : List (String × α)) (k : String) : Option α :=
  match m with
  | [] => none
  | (k0, v) :: rest => if k0 = k then some v else mapGet rest k

def mapSet (m : List (String × α)) (k : String) (v : α) : List (String × α) :=
  match m with
  | [] => [(k, v)]
  | (k0, v0) :: rest => if k0 = k then (k, v) :: rest else (k0, v0) :: mapSet rest k v

/-- Per-field null counters (`missing`, lines 93-99). -/
structure MissingCounts where
  product : Nat
  price : Nat
  rating : Nat
  instock : Nat
  launch_date : Nat
deriving Repr, DecidableEq

/-- Result of the inner `stats` helper (lines 159-175). -/
structure NumStats where
  count : Nat
  min : Option ℚ
  max : Option ℚ
  mean : Option ℚ
deriving Repr, DecidableEq

/-- The three instock bucket counters (line 109): JS keys
`"true"`, `"false"`, `"null"`. -/
structure InstockCounts where
  trueCount : Nat
  falseCount : Nat
  nullCount : Nat
deriving Repr, DecidableEq

/-- One month accumulator entry of `monthAcc` (lines 131-137). -/
structure MonthAcc where
  count : Nat
  priceSum : ℚ
  priceN : Nat
  ratingSum : ℚ
  ratingN : Nat
deriving Repr, DecidableEq

/-- One finalized `monthly` entry (lines 151-157, 184-186). -/
structure MonthBucket where
  month : String
  count : Nat
  avgPrice : Option ℚ
  avgRating : Option ℚ
deriving Repr, DecidableEq

/-- The whole accumulation state of the `for (const r of rows)` loop. -/
structure AccState where
  missing : MissingCounts
  priceVals : List ℚ
  ratingVals : List ℚ
  productCounts : List (String × Nat)
  instockCounts : InstockCounts
  monthAcc : List (String × MonthAcc)
deriving Repr, DecidableEq

def initAcc : AccState :=
  { missing := ⟨0, 0, 0, 0, 0⟩
    priceVals := []
    ratingVals := []
    productCounts := []
    instockCounts := ⟨0, 0, 0⟩
    monthAcc := [] }

/-- Lines 116-118: `if (r[k] === null) missing[k] += 1` for the five keys. -/
def bumpMissing (m : MissingCounts) (r : CleanedRow) : MissingCounts :=
  { product := m.product + (if r.product = none then 1 else 0)
    price := m.price + (if r.price = none then 1 else 0)
    rating := m.rating + (if r.rating = none then 1 else 0)
    instock := m.instock + (if r.instock = none then 1 else 0)
    launch_date := m.launch_date + (if r.launch_date = none then 1 else 0) }

/-- Lines 126-127: `r.instock === true ? "true" : r.instock === false ?
"false" : "null"` and increment that bucket. -/
def bumpInstock (c : InstockCounts) (r : CleanedRow) : InstockCounts :=
  match r.instock with
  | some true => { c with trueCount := c.trueCount + 1 }
  | some false => { c with falseCount := c.falseCount + 1 }
  | none => { c with nullCount := c.nullCount + 1 }

/-- Lines 138-146: bump one month accumulator with one row. -/
def bumpMonth (acc : MonthAcc) (r : CleanedRow) : MonthAcc :=
  let acc1 := { acc with count := acc.count + 1 }
  let acc2 :=
    match r.price with
    | some p => { acc1 with priceSum := acc1.priceSum + p, priceN := acc1.priceN + 1 }
    | none => acc1
  match r.rating with
  | some q => { acc2 with ratingSum := acc2.ratingSum + q, ratingN := acc2.ratingN + 1 }
  | none => acc2

/-- Lines 129-148: the `if (r.launch_date)` block.  JS truthiness of a
string is non-emptiness, so `some ""` takes the skip branch like `none`. -/
def monthStep (mAcc : List (String × MonthAcc)) (r : CleanedRow) :
    List (String × MonthAcc) :=
  match r.launch_date with
  | none => mAcc
  | some d =>
    if d = "" then mAcc
    else
      let month := jsSlice d 7
      let acc := (mapGet mAcc month).getD ⟨0, 0, 0, 0, 0⟩
      mapSet mAcc month (bumpMonth acc r)

/-- The body of the `for (const r of rows)` loop (lines 115-149). -/
def step (st : AccState) (r : CleanedRow) : AccState :=
  { missing := bumpMissing st.missing r
    priceVals := st.priceVals ++ (match r.price with | some p => [p] | none => [])
    ratingVals := st.ratingVals ++ (match r.rating with | some q => [q] | none => [])
    productCounts :=
      let p := r.product.getD "Unknown"
      mapSet st.productCounts p ((mapGet st.productCounts p).getD 0 + 1)
    instockCounts := bumpInstock st.instockCounts r
    monthAcc := monthStep st.monthAcc r }

/-- The inner `stats` helper (lines 159-175): single pass carrying
`(min, max, sum)`, mean is `sum / length`, all null on the empty array. -/
def stats (arr : List ℚ) : NumStats :=
  match arr with
  | [] => ⟨0, none, none, none⟩
  | x0 :: _ =>
    let acc := arr.foldl
      (fun (msx : ℚ × ℚ × ℚ) x =>
        ⟨if x < msx.1 then x else msx.1, if x > msx.2.1 then x else msx.2.1, msx.2.2 + x⟩)
      (x0, x0, 0)
    ⟨arr.length, some acc.1, some acc.2.1, some (acc.2.2 / (arr.length : ℚ))⟩

/-- Stable insertion of `x` after every already-placed `y` with `le y x`
(models one element of a stable JS `Array.prototype.sort`). -/
def insertLeB (le : α → α → Bool) : List α → α → List α
  | [], x => [x]
  | y :: rest, x => if le y x then y :: insertLeB le rest x else x :: y :: rest

/-- Stable sort by the boolean relation `le` (JS `sort` is stable). -/
def sortByLe (le : α → α → Bool) (l : List α) : List α :=
  l.foldl (insertLeB le) []

/-- Lines 151-157: finalize one month bucket; `acc.priceN ?` is JS
truthiness of a number, i.e. a non-zero test. -/
def finalizeMonth (p : String × MonthAcc) : MonthBucket :=
  { month := p.1
    count := p.2.count
    avgPrice := if p.2.priceN = 0 then none else some (p.2.priceSum / (p.2.priceN : ℚ))
    avgRating := if p.2.ratingN = 0 then none else some (p.2.ratingSum / (p.2.ratingN : ℚ)) }

/-- The analytics snapshot returned at lines 188-198. -/
structure AnalyticsResult where
  totalRows : Nat
  missing : MissingCounts
  priceStats : NumStats
  ratingStats : NumStats
  topProducts : List (String × Nat)
  instockCounts : InstockCounts
  monthly : List MonthBucket
deriving Repr, DecidableEq

/-- `computeAnalytics` (lines 89-199). -/
def computeAnalytics (rows : List CleanedRow) : AnalyticsResult :=
  let st := rows.foldl step initAcc
  { totalRows := rows.length
    missing := st.missing
    priceStats := stats st.priceVals
    ratingStats := stats st.ratingVals
    topProducts := (sortByLe (fun a b => decide (b.2 ≤ a.2)) st.productCounts).take 10
    instockCounts := st.instockCounts
    monthly := (sortByLe (fun a b => decide (a.1 ≤ b.1)) st.monthAcc).map finalizeMonth }

/-! ### Upload handler (`src/server.js` lines 14-15, 60-66, 201-246) -/

def REQUIRED_COLUMNS : List String := ["product", "price", "rating", "instock", "launch_date"]

def OPTIONAL_COLUMNS : List String := ["review"]

structure ValidateResult where
  missing : List String
  unexpected : List String
deriving Repr, DecidableEq

/-- `validateColumns` (lines 60-66). -/
def validateColumns (headers : List String) : ValidateResult :=
  { missing := REQUIRED_COLUMNS.filter (fun c => !(headers.contains c))
    unexpected := headers.filter
      (fun h => !(REQUIRED_COLUMNS.contains h) && !(OPTIONAL_COLUMNS.contains h)) }

/-- The row filter at lines 234-237: keep a row iff one of the five tracked
fields is non-null (`review` is not consulted). -/
def rowFilterPred (r : CleanedRow) : Bool :=
  r.product.isSome || r.price.isSome || r.rating.isSome ||
    r.instock.isSome || r.launch_date.isSome

/-- The two response shapes of the `/api/upload` handler that depend on the
core pipeline: the 422 schema error (lines 223-228) and the 200 success
body (lines 241-246). -/
inductive UploadResponse where
  | schemaError (error : String) (missing required found : List String)
  | success (warnings : Option (List String)) (analytics : AnalyticsResult)
      (sampleCleanedRows : List CleanedRow)
deriving Repr, DecidableEq

/-- Lines 219-246 of the handler, after CSV decoding: `headers` is the
normalized header list of the parsed records and `records` the parsed rows.
On missing required columns it halts with the schema error; otherwise it
cleans every record, filters empty rows, computes analytics, and previews
the first 8 filtered rows. -/
def handleUpload (fallback : String → Option String) (headers : List String)
    (records : List RawRecord) : UploadResponse :=
  let v := validateColumns headers
  if v.missing ≠ [] then
    .schemaError "CSV structure invalid: missing required columns."
      v.missing REQUIRED_COLUMNS headers
  else
    let cleanedRows := records.map (cleanRow fallback)
    let finalRows := cleanedRows.filter rowFilterPred
    .success (if v.unexpected ≠ [] then some v.unexpected else none)
      (computeAnalytics finalRows) (finalRows.take 8)

/-! ### Association-list lemmas (the JS `Map` model) -/

theorem mapSet_nil (k : String) (v : α) : mapSet [] k v = [(k, v)] := rfl

theorem mapSet_cons_eq (rest : List (String × α)) (k : String) (v v0 : α) :
    mapSet ((k, v0) :: rest) k v = (k, v) :: rest := by
  simp [mapSet]

theorem mapSet_cons_ne (rest : List (String × α)) (k0 k : String) (v v0 : α)
    (h : k0 ≠ k) : mapSet ((k0, v0) :: rest) k v = (k0, v0) :: mapSet rest k v := by
  simp [mapSet, h]

theorem mapGet_nil (k : String) : mapGet ([] : List (String × α)) k = none := rfl

theorem mapGet_cons_eq (rest : List (String × α)) (k : String) (v : α) :
    mapGet ((k, v) :: rest) k = some v := by
  simp [mapGet]

theorem mapGet_cons_ne (rest : List (String × α)) (k0 k : String) (v0 : α)
    (h : k0 ≠ k) : mapGet ((k0, v0) :: rest) k = mapGet rest k := by
  simp [mapGet, h]

theorem mapGet_mapSet (l : List (String × α)) (k k' : String) (v : α) :
    mapGet (mapSet l k v) k' = if k = k' then some v else mapGet l k' := by
  induction l with
  | nil =>
    by_cases h : k = k' <;> simp [mapSet, mapGet, h]
  | cons p rest ih =>
    obtain ⟨k0, v0⟩ := p
    by_cases h0 : k0 = k
    · subst h0
      rw [mapSet_cons_eq]
      by_cases h : k0 = k'
      · subst h
        rw [mapGet_cons_eq, if_pos rfl]
      · rw [mapGet_cons_ne _ _ _ _ h, mapGet_cons_ne _ _ _ _ h, if_neg h]
    · rw [mapSet_cons_ne _ _ _ _ _ h0]
      by_cases h : k0 = k'
      · subst h
        have hne : k ≠ k0 := fun heq => h0 heq.symm
        rw [mapGet_cons_eq, mapGet_cons_eq, if_neg hne]
      · rw [mapGet_cons_ne _ _ _ _ h, mapGet_cons_ne _ _ _ _ h, ih]

theorem mapGet_eq_none_iff (l : List (String × α)) (k : String) :
    mapGet l k = none ↔ ∀ v, (k, v) ∉ l := by
  induction l with
  | nil => simp [mapGet]
  | cons p rest ih =>
    obtain ⟨k0, v0⟩ := p
    by_cases h : k0 = k
    · subst h
      rw [mapGet_cons_eq]
      constructor
      · intro h
        exact absurd h (by simp)
      · intro hall
        exact absurd (List.mem_cons_self _ _) (hall v0)
    · rw [mapGet_cons_ne _ _ _ _ h, ih]
      constructor
      · intro hall v hmem
        rcases List.mem_cons.mp hmem with heq | hmem2
        · exact h (congrArg Prod.fst heq).symm
        · exact hall v hmem2
      · intro hall v hmem
        exact hall v (List.mem_cons_of_mem _ hmem)

theorem mem_of_mapGet_eq_some (l : List (String × α)) (k : String) (v : α)
    (h : mapGet l k = some v) : (k, v) ∈ l := by
  induction l with
  | nil => simp [mapGet] at h
  | cons p rest ih =>
    obtain ⟨k0, v0⟩ := p
    by_cases h0 : k0 = k
    · subst h0
      rw [mapGet_cons_eq] at h
      obtain rfl : v0 = v := Option.some.inj h
      exact List.mem_cons_self _ _
    · rw [mapGet_cons_ne _ _ _ _ h0] at h
      exact List.mem_cons_of_mem _ (ih h)

theorem mapGet_of_mem_of_nodup (l : List (String × α)) (p : String × α)
    (hmem : p ∈ l) (hnd : (l.map Prod.fst).Nodup) : mapGet l p.1 = some p.2 := by
  induction l with
  | nil => simp at hmem
  | cons q rest ih =>
    obtain ⟨k0, v0⟩ := q
    have hnd1 : k0 ∉ rest.map Prod.fst := (List.nodup_cons.mp hnd).1
    have hnd2 : (rest.map Prod.fst).Nodup := (List.nodup_cons.mp hnd).2
    rcases List.mem_cons.mp hmem with h | h
    · subst h
      exact mapGet_cons_eq rest k0 v0
    · have hk : k0 ≠ p.1 := by
        intro heq
        exact hnd1 (heq ▸ List.mem_map_of_mem Prod.fst h)
      rw [mapGet_cons_ne _ _ _ _ hk]
      exact ih h hnd2

theorem mem_keys_mapSet (l : List (String × α)) (k k' : String) (v : α) :
    k' ∈ (mapSet l k v).map Prod.fst ↔ k' ∈ l.map Prod.fst ∨ k' = k := by
  induction l with
  | nil =>
    constructor
    · intro hmem
      simp [mapSet] at hmem
      tauto
    · intro hmem
      rcases hmem with hmem | hmem
      · simp at hmem
      · simp [mapSet, hmem]
  | cons p rest ih =>
    obtain ⟨k0, v0⟩ := p
    by_cases h : k0 = k
    · subst h
      rw [mapSet_cons_eq]
      simp only [List.map_cons, List.mem_cons]
      tauto
    · rw [mapSet_cons_ne _ _ _ _ _ h]
      simp only [List.map_cons, List.mem_cons, ih]
      tauto

theorem nodup_keys_mapSet (l : List (String × α)) (k : String) (v : α)
    (h : (l.map Prod.fst).Nodup) : ((mapSet l k v).map Prod.fst).Nodup := by
  induction l with
  | nil => simp [mapSet]
  | cons p rest ih =>
    obtain ⟨k0, v0⟩ := p
    have h1 : k0 ∉ rest.map Prod.fst := (List.nodup_cons.mp h).1
    have h2 : (rest.map Prod.fst).Nodup := (List.nodup_cons.mp h).2
    by_cases h0 : k0 = k
    · subst h0
      rw [mapSet_cons_eq]
      exact h
    · rw [mapSet_cons_ne _ _ _ _ _ h0]
      rw [List.map_cons, List.nodup_cons]
      refine ⟨fun hmem => ?_, ih h2⟩
      rcases (mem_keys_mapSet rest k k0 v).mp hmem with hin | heq
      · exact h1 hin
      · exact h0 heq

/-! ### Stable-insertion-sort lemmas -/

theorem insertLeB_perm (le : α → α → Bool) (l : List α) (x : α) :
    List.Perm (insertLeB le l x) (x :: l) := by
  induction l with
  | nil => simp [insertLeB]
  | cons y rest ih =>
    by_cases h : le y x
    · simp only [insertLeB, h, if_true]
      exact (ih.cons y).trans (List.Perm.swap x y rest)
    · simp [insertLeB, h]

theorem sortByLe_aux_perm (le : α → α → Bool) (l acc : List α) :
    List.Perm (l.foldl (insertLeB le) acc) (acc ++ l) := by
  induction l generalizing acc with
  | nil => simp
  | cons x rest ih =>
    simp only [List.foldl_cons]
    refine ((ih (insertLeB le acc x)).trans ?_)
    refine ((insertLeB_perm le acc x).append_right rest).trans ?_
    exact (List.perm_middle).symm

theorem sortByLe_perm (le : α → α → Bool) (l : List α) :
    List.Perm (sortByLe le l) l := by
  simpa [sortByLe] using sortByLe_aux_perm le l []

theorem insertLeB_pairwise (le : α → α → Bool)
    (htot : ∀ a b, le a b = true ∨ le b a = true)
    (htrans : ∀ a b c, le a b = true → le b c = true → le a c = true)
    (l : List α) (x : α) (h : l.Pairwise (fun a b => le a b = true)) :
    (insertLeB le l x).Pairwise (fun a b => le a b = true) := by
  induction l with
  | nil => simp [insertLeB]
  | cons y rest ih =>
    rcases List.pairwise_cons.mp h with ⟨hy, hrest⟩
    by_cases hle : le y x
    · have heq : insertLeB le (y :: rest) x = y :: insertLeB le rest x := by
        simp [insertLeB, hle]
      rw [heq, List.pairwise_cons]
      refine ⟨fun z hz => ?_, ih hrest⟩
      have hz2 := (insertLeB_perm le rest x).mem_iff.mp hz
      rcases List.mem_cons.mp hz2 with hz3 | hz3
      · subst hz3
        exact hle
      · exact hy z hz3
    · have hxy : le x y = true := by
        rcases htot x y with hxy | hyx
        · exact hxy
        · exact absurd hyx hle
      have heq : insertLeB le (y :: rest) x = x :: y :: rest := by
        simp [insertLeB, hle]
      rw [heq, List.pairwise_cons]
      refine ⟨fun z hz => ?_, h⟩
      rcases List.mem_cons.mp hz with hz3 | hz3
      · subst hz3
        exact hxy
      · exact htrans x y z hxy (hy z hz3)

theorem sortByLe_pairwise (le : α → α → Bool)
    (htot : ∀ a b, le a b = true ∨ le b a = true)
    (htrans : ∀ a b c, le a b = true → le b c = true → le a c = true)
    (l : List α) : (sortByLe le l).Pairwise (fun a b => le a b = true) := by
  suffices h : ∀ acc, acc.Pairwise (fun a b => le a b = true) →
      (l.foldl (insertLeB le) acc).Pairwise (fun a b => le a b = true) by
    exact h [] (by simp)
  induction l with
  | nil =>
    intro acc hacc
    simpa using hacc
  | cons x rest ih =>
    intro acc hacc
    exact ih (insertLeB le acc x) (insertLeB_pairwise le htot htrans acc x hacc)

/-! ### Fold invariants of the aggregation loop -/

theorem foldl_step_instock (rows : List CleanedRow) (st : AccState) :
    (rows.foldl step st).instockCounts.trueCount
      + (rows.foldl step st).instockCounts.falseCount
      + (rows.foldl step st).instockCounts.nullCount
      = st.instockCounts.trueCount + st.instockCounts.falseCount
        + st.instockCounts.nullCount + rows.length := by
  induction rows generalizing st with
  | nil => simp
  | cons r rest ih =>
    rw [List.foldl_cons, ih]
    rcases hio : r.instock with _ | b
    · simp [step, bumpInstock, hio]
      omega
    · cases b <;> simp [step, bumpInstock, hio] <;> omega

theorem foldl_step_priceVals (rows : List CleanedRow) (st : AccState) :
    (rows.foldl step st).priceVals = st.priceVals ++ rows.filterMap CleanedRow.price := by
  induction rows generalizing st with
  | nil => simp
  | cons r rest ih =>
    rw [List.foldl_cons, ih]
    rcases hp : r.price with _ | p <;> simp [step, hp, List.filterMap_cons]

theorem foldl_step_ratingVals (rows : List CleanedRow) (st : AccState) :
    (rows.foldl step st).ratingVals = st.ratingVals ++ rows.filterMap CleanedRow.rating := by
  induction rows generalizing st with
  | nil => simp
  | cons r rest ih =>
    rw [List.foldl_cons, ih]
    rcases hq : r.rating with _ | q <;> simp [step, hq, List.filterMap_cons]

theorem foldl_step_missing_launch (rows : List CleanedRow) (st : AccState) :
    (rows.foldl step st).missing.launch_date
      = st.missing.launch_date
        + (rows.filter (fun r => decide (r.launch_date = none))).length := by
  induction rows generalizing st with
  | nil => simp
  | cons r rest ih =>
    rw [List.foldl_cons, ih]
    rcases hd : r.launch_date with _ | d
    · simp [step, bumpMissing, hd, List.filter_cons]
      try omega
    · simp [step, bumpMissing, hd, List.filter_cons]
      try omega

theorem statsFold_third (arr : List ℚ) (a b c : ℚ) :
    (arr.foldl
      (fun (msx : ℚ × ℚ × ℚ) x =>
        ⟨if x < msx.1 then x else msx.1, if x > msx.2.1 then x else msx.2.1, msx.2.2 + x⟩)
      (a, b, c)).2.2 = c + arr.sum := by
  induction arr generalizing a b c with
  | nil => simp
  | cons x rest ih =>
    rw [List.foldl_cons, ih, List.sum_cons]
    ring

/-- Claim C10: for every filtered row set, the three instock bucket
counters produced by the aggregator sum exactly to `totalRows` — each row
increments exactly one of the `true`, `false`, or `null` buckets. -/
theorem instock_buckets_sum_to_totalRows (rows : List CleanedRow) :
    (computeAnalytics rows).instockCounts.trueCount
      + (computeAnalytics rows).instockCounts.falseCount
      + (computeAnalytics rows).instockCounts.nullCount
      = (computeAnalytics rows).totalRows := by
  simp only [computeAnalytics]
  rw [foldl_step_instock]
  simp [initAcc]

/-- Claim C8: numeric statistics on an empty accumulated value array (for
`price` and for `rating`) are `{count 0, min null, max null, mean null}`,
and the mean division only ever happens with a non-zero denominator. -/
theorem stats_empty_input_and_no_div_by_zero :
    stats [] = ⟨0, none, none, none⟩
    ∧ (∀ rows : List CleanedRow, rows.filterMap CleanedRow.price = [] →
        (computeAnalytics rows).priceStats = ⟨0, none, none, none⟩)
    ∧ (∀ rows : List CleanedRow, rows.filterMap CleanedRow.rating = [] →
        (computeAnalytics rows).ratingStats = ⟨0, none, none, none⟩)
    ∧ (∀ arr : List ℚ, (stats arr).mean ≠ none →
        ((arr.length : ℚ) ≠ 0 ∧ (stats arr).mean = some (arr.sum / (arr.length : ℚ)))) := by
  refine ⟨rfl, ?_, ?_, ?_⟩
  · intro rows h
    simp only [computeAnalytics]
    rw [foldl_step_priceVals, h]
    rfl
  · intro rows h
    simp only [computeAnalytics]
    rw [foldl_step_ratingVals, h]
    rfl
  · intro arr h
    match arr with
    | [] => simp [stats] at h
    | x0 :: rest =>
      have hlen : ((x0 :: rest).length : ℚ) ≠ 0 := by
        simp only [List.length_cons]
        positivity
      refine ⟨hlen, ?_⟩
      simp only [stats]
      rw [statsFold_third]
      rw [zero_add]

/-- Witness for Claim C8 at concrete inputs: a one-row set with null price
has the all-null price stats, and the guard denominator at `[1]` is the
non-zero `1`. -/
theorem stats_empty_input_and_no_div_by_zero_witness :
    (computeAnalytics [⟨some "A", none, none, none, none, none⟩]).priceStats
        = ⟨0, none, none, none⟩
    ∧ (([(1 : ℚ)].length : ℚ) ≠ 0) := by
  constructor
  · exact stats_empty_input_and_no_div_by_zero.2.1 [⟨some "A", none, none, none, none, none⟩] rfl
  · exact (stats_empty_input_and_no_div_by_zero.2.2.2 [(1 : ℚ)] (by simp [stats])).1

/-- Claim C7: the row cleaner clamps a non-null normalized rating into
`[0, 5]` — below 0 becomes 0, above 5 becomes 5 — so every cleaned row's
rating is within `[0, 5]` whenever it is non-null. -/
theorem rating_clamped (fallback : String → Option String) (row : RawRecord) :
    (∀ v, parseNumber row.rating = some v →
        (cleanRow fallback row).rating = some (if v < 0 then 0 else if v > 5 then 5 else v))
    ∧ (∀ q, (cleanRow fallback row).rating = some q → 0 ≤ q ∧ q ≤ 5) := by
  constructor
  · intro v hv
    simp [cleanRow, hv]
  · intro q hq
    simp only [cleanRow] at hq
    rcases hv : parseNumber row.rating with _ | v
    · rw [hv] at hq
      simp at hq
    · rw [hv] at hq
      simp only [Option.some.injEq] at hq
      subst hq
      split_ifs with h1 h2
      · norm_num
      · norm_num
      · constructor <;> linarith [not_lt.mp h1, not_lt.mp h2]

/-- Witness for Claim C7: a raw rating of `"7.2"` is normalized to 36/5 and
clamped to 5. -/
theorem rating_clamped_witness :
    (cleanRow (fun _ => none) ⟨none, none, some "7.2", none, none, none⟩).rating = some 5 := by
  have h := (rating_clamped (fun _ => none) ⟨none, none, some "7.2", none, none, none⟩).1
    ((36 : ℚ) / 5)
    (by
      simp +decide [parseNumber, jsNumberFinite, jsTrim, jsTrimList, parseSignedBody,
        parseDecimalBody, parseExpTail, scalePow10, digitsToNat]
      norm_num)
  rw [h]
  norm_num

/-- Claim C9: the numeric normalizer returns null for absent input and for
input trimming to empty, strips currency symbols and comma separators
before conversion, returns null on non-numeric remainders, and preserves
decimals and negatives: `"£1,234.50" → 1234.50`, `"abc" → null`,
`"" → null`, `"-3.5" → -3.5`. -/
theorem parseNumber_normalizer_spec :
    parseNumber none = none
    ∧ (∀ s, jsTrim s = "" → parseNumber (some s) = none)
    ∧ parseNumber (some "£1,234.50") = some ((2469 : ℚ) / 2)
    ∧ parseNumber (some "abc") = none
    ∧ parseNumber (some "") = none
    ∧ parseNumber (some "-3.5") = some (-((7 : ℚ) / 2)) := by
  refine ⟨rfl, ?_, ?_, ?_, ?_, ?_⟩
  · intro s hs
    simp [parseNumber, hs]
  · simp +decide [parseNumber, jsNumberFinite, jsTrim, jsTrimList, parseSignedBody,
      parseDecimalBody, parseExpTail, scalePow10, digitsToNat]
    norm_num
  · simp +decide [parseNumber, jsNumberFinite, jsTrim, jsTrimList, parseSignedBody,
      parseDecimalBody, parseExpTail, scalePow10, digitsToNat]
  · decide
  · simp +decide [parseNumber, jsNumberFinite, jsTrim, jsTrimList, parseSignedBody,
      parseDecimalBody, parseExpTail, scalePow10, digitsToNat]
    norm_num

/-- Witness for Claim C9 at a concrete input with a hypothesis discharged:
a blank string trims to empty and normalizes to null. -/
theorem parseNumber_normalizer_spec_witness :
    parseNumber (some "  ") = none :=
  parseNumber_normalizer_spec.2.1 "  " (by decide)

/-- Claim C1 counterexample: the boolean normalizer maps the unrecognized
non-empty token `"maybe"` to `null` — the very same value it returns for
empty or absent input — not to a distinct third state. -/
theorem parseBoolean_maybe_equals_null :
    parseBoolean (some "maybe") = none
    ∧ parseBoolean none = none
    ∧ parseBoolean (some "") = none
    ∧ parseBoolean (some "maybe") = parseBoolean (some "") := by
  refine ⟨by decide, rfl, by decide, by decide⟩

/-- Claim C1 (amended): every raw value whose trimmed, lower-cased form is
a non-empty token outside both recognized token sets is normalized to
`null`, the same value as for empty or absent input (the source has no
distinct `unknown` state at the normalizer level). -/
theorem parseBoolean_unrecognized_is_null (s : String)
    (h1 : jsToLower (jsTrim s) ≠ "")
    (h2 : jsToLower (jsTrim s) ∉ trueTokens)
    (h3 : jsToLower (jsTrim s) ∉ falseTokens) :
    parseBoolean (some s) = none ∧ parseBoolean (some s) = parseBoolean none := by
  constructor <;> simp [parseBoolean, h1, h2, h3]

/-- Witness for Claim C1 (amended) at `"maybe"`. -/
theorem parseBoolean_unrecognized_is_null_witness :
    parseBoolean (some "maybe") = none :=
  (parseBoolean_unrecognized_is_null "maybe" (by decide) (by decide) (by decide)).1

/-- Claim C2 counterexample: a present `review` value of a single space is
cleaned to the empty string `some ""`, not to `null`. -/
theorem review_blank_cleans_to_empty_string :
    (cleanRow (fun _ => none) ⟨none, none, none, none, some " ", none⟩).review = some ""
    ∧ (some "" : Option String) ≠ none := by
  refine ⟨by decide, by decide⟩

/-- Claim C2 (amended): when the `review` column is present the cleaner
stores the trimmed raw string — the empty string, not null, when the value
trims to empty — and when the column is absent, `review` is null with no
parse attempt. -/
theorem review_trimmed_when_present (fallback : String → Option String) (row : RawRecord) :
    (row.review = none → (cleanRow fallback row).review = none)
    ∧ (∀ s, row.review = some s → (cleanRow fallback row).review = some (jsTrim s)) := by
  constructor
  · intro h
    simp [cleanRow, h]
  · intro s h
    simp [cleanRow, h]

/-- Witness for Claim C2 (amended): a whitespace-only review value yields
`some ""` and an absent one yields `none`. -/
theorem review_trimmed_when_present_witness :
    (cleanRow (fun _ => none) ⟨none, none, none, none, some "  x ", none⟩).review = some "x"
    ∧ (cleanRow (fun _ => none) ⟨none, none, none, none, none, none⟩).review = none := by
  constructor
  · have h := (review_trimmed_when_present (fun _ => none)
      ⟨none, none, none, none, some "  x ", none⟩).2 "  x " rfl
    rw [h]
    decide
  · exact (review_trimmed_when_present (fun _ => none)
      ⟨none, none, none, none, none, none⟩).1 rfl

/-- Projection of the preview list out of a success response. -/
def sampleOf : UploadResponse → Option (List CleanedRow)
  | .success _ _ sample => some sample
  | _ => none

/-- Claim C3 counterexample: with an all-empty first record (dropped by
the row filter), the preview is the first 8 *filtered* rows, which differs
from the first 8 cleaned rows of the input. -/
theorem sample_differs_from_first8_cleaned :
    sampleOf (handleUpload (fun _ => none) REQUIRED_COLUMNS
        [⟨some "", some "", some "", some "", none, some ""⟩,
         ⟨some "B", none, none, none, none, none⟩])
      = some [⟨some "B", none, none, none, none, none⟩]
    ∧ (([⟨some "", some "", some "", some "", none, some ""⟩,
         ⟨some "B", none, none, none, none, none⟩] : List RawRecord).map
          (cleanRow (fun _ => none))).take 8
      = [⟨none, none, none, none, none, none⟩, ⟨some "B", none, none, none, none, none⟩]
    ∧ some [(⟨some "B", none, none, none, none, none⟩ : CleanedRow)]
      ≠ some [(⟨none, none, none, none, none, none⟩ : CleanedRow),
              ⟨some "B", none, none, none, none, none⟩] := by
  refine ⟨by decide, by decide, by decide⟩

/-- Claim C3 (amended): for every successfully validated input, the
`sampleCleanedRows` field equals the first 8 rows of the *filtered*
cleaned row set (the cleaned rows surviving the row filter), fewer if
fewer remain. -/
theorem sample_is_first8_of_filtered (fallback : String → Option String)
    (headers : List String) (records : List RawRecord)
    (h : (validateColumns headers).missing = []) :
    sampleOf (handleUpload fallback headers records)
      = some (((records.map (cleanRow fallback)).filter rowFilterPred).take 8) := by
  simp [handleUpload, h, sampleOf]

/-- Witness for Claim C3 (amended) on a concrete validated input. -/
theorem sample_is_first8_of_filtered_witness :
    sampleOf (handleUpload (fun _ => none) REQUIRED_COLUMNS
        [⟨some "B", none, none, none, none, none⟩])
      = some [⟨some "B", none, none, none, none, none⟩] := by
  have h := sample_is_first8_of_filtered (fun _ => none) REQUIRED_COLUMNS
    [⟨some "B", none, none, none, none, none⟩] (by decide)
  rw [h]
  decide

/-- Claim C4: when at least one required column is missing from the
normalized headers, the pipeline halts before any row is cleaned and
returns the schema error whose details are exactly the missing columns,
the full required list, and the headers found; no analytics are computed. -/
theorem schema_error_on_missing_columns (fallback : String → Option String)
    (headers : List String) (records : List RawRecord)
    (h : ∃ c ∈ REQUIRED_COLUMNS, c ∉ headers) :
    handleUpload fallback headers records
      = .schemaError "CSV structure invalid: missing required columns."
          (validateColumns headers).missing REQUIRED_COLUMNS headers
    ∧ (∀ c, c ∈ (validateColumns headers).missing ↔ (c ∈ REQUIRED_COLUMNS ∧ c ∉ headers)) := by
  have hmem : ∀ c, c ∈ (validateColumns headers).missing
      ↔ (c ∈ REQUIRED_COLUMNS ∧ c ∉ headers) := by
    intro c
    simp [validateColumns, List.mem_filter]
  have hne : (validateColumns headers).missing ≠ [] := by
    obtain ⟨c, hc1, hc2⟩ := h
    intro hemp
    have hcmem := (hmem c).mpr ⟨hc1, hc2⟩
    rw [hemp] at hcmem
    simp at hcmem
  refine ⟨?_, hmem⟩
  simp only [handleUpload]
  rw [if_pos hne]

/-- Witness for Claim C4: headers `["product", "price"]` produce the
schema error with `missing = [rating, instock, launch_date]`. -/
theorem schema_error_on_missing_columns_witness :
    handleUpload (fun _ => none) ["product", "price"] []
      = .schemaError "CSV structure invalid: missing required columns."
          ["rating", "instock", "launch_date"] REQUIRED_COLUMNS ["product", "price"]
    ∧ "rating" ∈ (validateColumns ["product", "price"]).missing := by
  have h := schema_error_on_missing_columns (fun _ => none) ["product", "price"] []
    ⟨"rating", by decide, by decide⟩
  constructor
  · rw [h.1]
    decide
  · exact (h.2 "rating").mpr ⟨by decide, by decide⟩

/-- Claim C6: a cleaned row whose five tracked fields are all null is
dropped by the row filter regardless of its review value, so the filtered
row set — and with it `totalRows`, missing counts, numeric stats, the
product ranking, the instock buckets, and the monthly series — is the
same as if the row were never present. -/
theorem all_null_row_contributes_nothing (pre post : List CleanedRow) (r : CleanedRow)
    (h1 : r.product = none) (h2 : r.price = none) (h3 : r.rating = none)
    (h4 : r.instock = none) (h5 : r.launch_date = none) :
    rowFilterPred r = false
    ∧ (pre ++ r :: post).filter rowFilterPred = (pre ++ post).filter rowFilterPred
    ∧ computeAnalytics ((pre ++ r :: post).filter rowFilterPred)
        = computeAnalytics ((pre ++ post).filter rowFilterPred) := by
  have hf : rowFilterPred r = false := by
    simp [rowFilterPred, h1, h2, h3, h4, h5]
  have hfil : (pre ++ r :: post).filter rowFilterPred
      = (pre ++ post).filter rowFilterPred := by
    simp [List.filter_append, List.filter_cons, hf]
  exact ⟨hf, hfil, by rw [hfil]⟩

/-- Witness for Claim C6: an all-null row with a non-null review is still
dropped. -/
theorem all_null_row_contributes_nothing_witness :
    ([(⟨none, none, none, none, some "great", none⟩ : CleanedRow)].filter rowFilterPred) = [] := by
  have h := all_null_row_contributes_nothing [] []
    ⟨none, none, none, none, some "great", none⟩ rfl rfl rfl rfl rfl
  simpa using h.2.1

/-! ### Month-bucket lemmas for the monthly time series -/

/-- `r` falls into month bucket `m`: non-null launch date whose
7-character month key is `m`. -/
def rowInMonth (m : String) (r : CleanedRow) : Bool :=
  match r.launch_date with
  | some d => decide (jsSlice d 7 = m)
  | none => false

/-- The rows of `rows` bucketed into month `m`. -/
def monthRows (rows : List CleanedRow) (m : String) : List CleanedRow :=
  rows.filter (rowInMonth m)

theorem rowInMonth_iff (m : String) (r : CleanedRow) :
    rowInMonth m r = true ↔ ∃ d, r.launch_date = some d ∧ jsSlice d 7 = m := by
  rcases hd : r.launch_date with _ | d <;> simp [rowInMonth, hd]

theorem monthStep_get (mAcc : List (String × MonthAcc)) (r : CleanedRow) (m : String)
    (hwf : r.launch_date ≠ some "") :
    mapGet (monthStep mAcc r) m =
      if rowInMonth m r
      then some (bumpMonth ((mapGet mAcc m).getD ⟨0, 0, 0, 0, 0⟩) r)
      else mapGet mAcc m := by
  rcases hd : r.launch_date with _ | d
  · simp [monthStep, rowInMonth, hd]
  · have hdne : ¬(d = "") := fun hh => hwf (by rw [hd, hh])
    simp only [monthStep, hd]
    rw [if_neg hdne, mapGet_mapSet]
    by_cases hm : jsSlice d 7 = m
    · rw [if_pos hm]
      simp [rowInMonth, hd, hm]
    · rw [if_neg hm]
      simp [rowInMonth, hd, hm]

theorem foldl_step_monthAcc (rows : List CleanedRow) (st : AccState) (m : String)
    (hwf : ∀ r ∈ rows, r.launch_date ≠ some "") :
    mapGet (rows.foldl step st).monthAcc m =
      if monthRows rows m = []
      then mapGet st.monthAcc m
      else some ((monthRows rows m).foldl bumpMonth
        ((mapGet st.monthAcc m).getD ⟨0, 0, 0, 0, 0⟩)) := by
  induction rows generalizing st with
  | nil => simp [monthRows]
  | cons r rest ih =>
    have hwr : r.launch_date ≠ some "" := hwf r (List.mem_cons_self r rest)
    have hwrest : ∀ x ∈ rest, x.launch_date ≠ some "" :=
      fun x hx => hwf x (List.mem_cons_of_mem r hx)
    rw [List.foldl_cons, ih (step st r) hwrest]
    have hstep : (step st r).monthAcc = monthStep st.monthAcc r := rfl
    by_cases hr : rowInMonth m r
    · have hmr : monthRows (r :: rest) m = r :: monthRows rest m := by
        simp [monthRows, List.filter_cons, hr]
      rw [hmr, if_neg (List.cons_ne_nil _ _)]
      by_cases hrest : monthRows rest m = []
      · rw [if_pos hrest, hrest, hstep, monthStep_get st.monthAcc r m hwr, if_pos hr]
        simp
      · rw [if_neg hrest, hstep, monthStep_get st.monthAcc r m hwr, if_pos hr]
        simp [List.foldl_cons]
    · have hmr : monthRows (r :: rest) m = monthRows rest m := by
        simp [monthRows, List.filter_cons, hr]
      rw [hmr, hstep, monthStep_get st.monthAcc r m hwr, if_neg hr]

theorem monthStep_nodup_keys (mAcc : List (String × MonthAcc)) (r : CleanedRow)
    (h : (mAcc.map Prod.fst).Nodup) : ((monthStep mAcc r).map Prod.fst).Nodup := by
  rcases hd : r.launch_date with _ | d
  · simpa [monthStep, hd] using h
  · by_cases hdne : d = ""
    · simpa [monthStep, hd, hdne] using h
    · simp only [monthStep, hd]
      rw [if_neg hdne]
      exact nodup_keys_mapSet _ _ _ h

theorem foldl_step_monthAcc_nodup (rows : List CleanedRow) (st : AccState)
    (h : (st.monthAcc.map Prod.fst).Nodup) :
    ((rows.foldl step st).monthAcc.map Prod.fst).Nodup := by
  induction rows generalizing st with
  | nil => exact h
  | cons r rest ih =>
    rw [List.foldl_cons]
    exact ih (step st r) (monthStep_nodup_keys st.monthAcc r h)

theorem bumpMonth_count (a : MonthAcc) (r : CleanedRow) :
    (bumpMonth a r).count = a.count + 1 := by
  rcases hp : r.price with _ | p <;> rcases hq : r.rating with _ | q <;>
    simp [bumpMonth, hp, hq]

theorem bumpMonth_price_none (a : MonthAcc) (r : CleanedRow) (h : r.price = none) :
    (bumpMonth a r).priceSum = a.priceSum ∧ (bumpMonth a r).priceN = a.priceN := by
  rcases hq : r.rating with _ | q <;> simp [bumpMonth, h, hq]

theorem bumpMonth_price_some (a : MonthAcc) (r : CleanedRow) (p : ℚ) (h : r.price = some p) :
    (bumpMonth a r).priceSum = a.priceSum + p ∧ (bumpMonth a r).priceN = a.priceN + 1 := by
  rcases hq : r.rating with _ | q <;> simp [bumpMonth, h, hq]

theorem bumpMonth_rating_none (a : MonthAcc) (r : CleanedRow) (h : r.rating = none) :
    (bumpMonth a r).ratingSum = a.ratingSum ∧ (bumpMonth a r).ratingN = a.ratingN := by
  rcases hp : r.price with _ | p <;> simp [bumpMonth, h, hp]

theorem bumpMonth_rating_some (a : MonthAcc) (r : CleanedRow) (q : ℚ) (h : r.rating = some q) :
    (bumpMonth a r).ratingSum = a.ratingSum + q ∧ (bumpMonth a r).ratingN = a.ratingN + 1 := by
  rcases hp : r.price with _ | p <;> simp [bumpMonth, h, hp]

theorem foldl_bumpMonth_count (l : List CleanedRow) (a : MonthAcc) :
    (l.foldl bumpMonth a).count = a.count + l.length := by
  induction l generalizing a with
  | nil => simp
  | cons r rest ih =>
    rw [List.foldl_cons, ih, bumpMonth_count]
    simp only [List.length_cons]
    omega

theorem foldl_bumpMonth_price (l : List CleanedRow) (a : MonthAcc) :
    (l.foldl bumpMonth a).priceSum = a.priceSum + (l.filterMap CleanedRow.price).sum
    ∧ (l.foldl bumpMonth a).priceN = a.priceN + (l.filterMap CleanedRow.price).length := by
  induction l generalizing a with
  | nil => simp
  | cons r rest ih =>
    rw [List.foldl_cons]
    obtain ⟨ih1, ih2⟩ := ih (bumpMonth a r)
    rcases hp : r.price with _ | p
    · obtain ⟨h1, h2⟩ := bumpMonth_price_none a r hp
      constructor
      · rw [ih1, h1]
        simp [List.filterMap_cons, hp]
      · rw [ih2, h2]
        simp [List.filterMap_cons, hp]
    · obtain ⟨h1, h2⟩ := bumpMonth_price_some a r p hp
      constructor
      · rw [ih1, h1]
        simp only [List.filterMap_cons, hp, List.sum_cons]
        ring
      · rw [ih2, h2]
        simp only [List.filterMap_cons, hp, List.length_cons]
        omega

theorem foldl_bumpMonth_rating (l : List CleanedRow) (a : MonthAcc) :
    (l.foldl bumpMonth a).ratingSum = a.ratingSum + (l.filterMap CleanedRow.rating).sum
    ∧ (l.foldl bumpMonth a).ratingN = a.ratingN + (l.filterMap CleanedRow.rating).length := by
  induction l generalizing a with
  | nil => simp
  | cons r rest ih =>
    rw [List.foldl_cons]
    obtain ⟨ih1, ih2⟩ := ih (bumpMonth a r)
    rcases hq : r.rating with _ | q
    · obtain ⟨h1, h2⟩ := bumpMonth_rating_none a r hq
      constructor
      · rw [ih1, h1]
        simp [List.filterMap_cons, hq]
      · rw [ih2, h2]
        simp [List.filterMap_cons, hq]
    · obtain ⟨h1, h2⟩ := bumpMonth_rating_some a r q hq
      constructor
      · rw [ih1, h1]
        simp only [List.filterMap_cons, hq, List.sum_cons]
        ring
      · rw [ih2, h2]
        simp only [List.filterMap_cons, hq, List.length_cons]
        omega

/-- Claim C5: the monthly series has one bucket per distinct 7-character
month key of the non-null launch dates; each bucket carries the bucket row
count and `sum/n`-averages over the bucket's non-null prices/ratings (null
when `n = 0`); buckets are emitted sorted strictly ascending by the month
key; rows with null launch date land in no bucket but still count toward
`totalRows`, `missing`, and the instock buckets.  (The hypothesis rules
out an empty-string launch date, which `cleanRow` never produces.) -/
theorem monthly_series_spec (rows : List CleanedRow)
    (hwf : ∀ r ∈ rows, r.launch_date ≠ some "") :
    (∀ m : String,
      (∃ b ∈ (computeAnalytics rows).monthly, b.month = m)
        ↔ ∃ r ∈ rows, ∃ d, r.launch_date = some d ∧ jsSlice d 7 = m)
    ∧ (∀ b ∈ (computeAnalytics rows).monthly,
        b.count = (monthRows rows b.month).length
        ∧ b.avgPrice =
            (if ((monthRows rows b.month).filterMap CleanedRow.price).length = 0 then none
             else some (((monthRows rows b.month).filterMap CleanedRow.price).sum
               / (((monthRows rows b.month).filterMap CleanedRow.price).length : ℚ)))
        ∧ b.avgRating =
            (if ((monthRows rows b.month).filterMap CleanedRow.rating).length = 0 then none
             else some (((monthRows rows b.month).filterMap CleanedRow.rating).sum
               / (((monthRows rows b.month).filterMap CleanedRow.rating).length : ℚ))))
    ∧ (computeAnalytics rows).monthly.Pairwise (fun b1 b2 => b1.month < b2.month)
    ∧ (computeAnalytics rows).totalRows = rows.length
    ∧ (computeAnalytics rows).missing.launch_date
        = (rows.filter (fun r => decide (r.launch_date = none))).length
    ∧ (computeAnalytics rows).instockCounts.trueCount
        + (computeAnalytics rows).instockCounts.falseCount
        + (computeAnalytics rows).instockCounts.nullCount = rows.length := by
  have hM : (computeAnalytics rows).monthly =
      (sortByLe (fun a b => decide (a.1 ≤ b.1))
        ((rows.foldl step initAcc).monthAcc)).map finalizeMonth := rfl
  have hperm := sortByLe_perm (fun (a b : String × MonthAcc) => decide (a.1 ≤ b.1))
    ((rows.foldl step initAcc).monthAcc)
  have hget : ∀ m, mapGet (rows.foldl step initAcc).monthAcc m =
      (if monthRows rows m = [] then none
       else some ((monthRows rows m).foldl bumpMonth ⟨0, 0, 0, 0, 0⟩)) := by
    intro m
    have h := foldl_step_monthAcc rows initAcc m hwf
    rw [h]
    by_cases hmr : monthRows rows m = []
    · rw [if_pos hmr, if_pos hmr]
      rfl
    · rw [if_neg hmr, if_neg hmr]
      rfl
  have hnd : (((rows.foldl step initAcc).monthAcc).map Prod.fst).Nodup :=
    foldl_step_monthAcc_nodup rows initAcc (by simp [initAcc])
  have hkeys : ∀ m : String,
      (∃ b ∈ (computeAnalytics rows).monthly, b.month = m)
        ↔ ∃ r ∈ rows, ∃ d, r.launch_date = some d ∧ jsSlice d 7 = m := by
    intro m
    rw [hM]
    constructor
    · rintro ⟨b, hb, hbm⟩
      obtain ⟨p, hps, rfl⟩ := List.mem_map.mp hb
      have hpmem : p ∈ (rows.foldl step initAcc).monthAcc := hperm.mem_iff.mp hps
      have hp1 : p.1 = m := hbm
      have hgetp : mapGet (rows.foldl step initAcc).monthAcc m = some p.2 := by
        rw [← hp1]
        exact mapGet_of_mem_of_nodup _ p hpmem hnd
      rw [hget m] at hgetp
      by_cases hmr : monthRows rows m = []
      · rw [if_pos hmr] at hgetp
        exact absurd hgetp (by simp)
      · obtain ⟨r, hrmem, hrin⟩ : ∃ r ∈ rows, rowInMonth m r = true := by
          by_contra hno
          push_neg at hno
          exact hmr (List.filter_eq_nil_iff.mpr (fun r hr => by simp [hno r hr]))
        obtain ⟨d, hd1, hd2⟩ := (rowInMonth_iff m r).mp hrin
        exact ⟨r, hrmem, d, hd1, hd2⟩
    · rintro ⟨r, hrmem, d, hd1, hd2⟩
      have hrin : rowInMonth m r = true := (rowInMonth_iff m r).mpr ⟨d, hd1, hd2⟩
      have hmr : monthRows rows m ≠ [] := by
        intro hemp
        have := List.filter_eq_nil_iff.mp hemp r hrmem
        simp [hrin] at this
      have hval : mapGet (rows.foldl step initAcc).monthAcc m =
          some ((monthRows rows m).foldl bumpMonth ⟨0, 0, 0, 0, 0⟩) := by
        rw [hget m, if_neg hmr]
      have hmem := mem_of_mapGet_eq_some _ _ _ hval
      refine ⟨finalizeMonth (m, (monthRows rows m).foldl bumpMonth ⟨0, 0, 0, 0, 0⟩), ?_, rfl⟩
      exact List.mem_map_of_mem finalizeMonth (hperm.mem_iff.mpr hmem)
  have hcontents : ∀ b ∈ (computeAnalytics rows).monthly,
      b.count = (monthRows rows b.month).length
      ∧ b.avgPrice =
          (if ((monthRows rows b.month).filterMap CleanedRow.price).length = 0 then none
           else some (((monthRows rows b.month).filterMap CleanedRow.price).sum
             / (((monthRows rows b.month).filterMap CleanedRow.price).length : ℚ)))
      ∧ b.avgRating =
          (if ((monthRows rows b.month).filterMap CleanedRow.rating).length = 0 then none
           else some (((monthRows rows b.month).filterMap CleanedRow.rating).sum
             / (((monthRows rows b.month).filterMap CleanedRow.rating).length : ℚ))) := by
    intro b hb
    rw [hM] at hb
    obtain ⟨p, hps, rfl⟩ := List.mem_map.mp hb
    have hpmem : p ∈ (rows.foldl step initAcc).monthAcc := hperm.mem_iff.mp hps
    have hgetp : mapGet (rows.foldl step initAcc).monthAcc p.1 = some p.2 :=
      mapGet_of_mem_of_nodup _ p hpmem hnd
    rw [hget p.1] at hgetp
    by_cases hmr : monthRows rows p.1 = []
    · rw [if_pos hmr] at hgetp
      exact absurd hgetp (by simp)
    · rw [if_neg hmr] at hgetp
      have hp2 : p.2 = (monthRows rows p.1).foldl bumpMonth ⟨0, 0, 0, 0, 0⟩ :=
        Option.some.inj hgetp.symm
      have hmonth : (finalizeMonth p).month = p.1 := rfl
      have hcount := foldl_bumpMonth_count (monthRows rows p.1) ⟨0, 0, 0, 0, 0⟩
      have hprice := foldl_bumpMonth_price (monthRows rows p.1) ⟨0, 0, 0, 0, 0⟩
      have hrating := foldl_bumpMonth_rating (monthRows rows p.1) ⟨0, 0, 0, 0, 0⟩
      refine ⟨?_, ?_, ?_⟩
      · show p.2.count = (monthRows rows ((finalizeMonth p).month)).length
        rw [hmonth, hp2, hcount]
        simp
      · show (if p.2.priceN = 0 then none
            else some (p.2.priceSum / (p.2.priceN : ℚ))) = _
        rw [hmonth, hp2, hprice.1, hprice.2]
        simp only [zero_add]
      · show (if p.2.ratingN = 0 then none
            else some (p.2.ratingSum / (p.2.ratingN : ℚ))) = _
        rw [hmonth, hp2, hrating.1, hrating.2]
        simp only [zero_add]
  have hsorted : (computeAnalytics rows).monthly.Pairwise
      (fun b1 b2 => b1.month < b2.month) := by
    have hpw := sortByLe_pairwise (fun (a b : String × MonthAcc) => decide (a.1 ≤ b.1))
      (fun a b => by
        rcases le_total a.1 b.1 with h | h
        · exact Or.inl (by simpa using h)
        · exact Or.inr (by simpa using h))
      (fun a b c hab hbc => by
        have h1 : a.1 ≤ b.1 := by simpa using hab
        have h2 : b.1 ≤ c.1 := by simpa using hbc
        simpa using le_trans h1 h2)
      ((rows.foldl step initAcc).monthAcc)
    have hndSorted : ((sortByLe (fun (a b : String × MonthAcc) => decide (a.1 ≤ b.1))
        ((rows.foldl step initAcc).monthAcc)).map Prod.fst).Nodup :=
      (hperm.map Prod.fst).nodup_iff.mpr hnd
    have hne : (sortByLe (fun (a b : String × MonthAcc) => decide (a.1 ≤ b.1))
        ((rows.foldl step initAcc).monthAcc)).Pairwise (fun p q => p.1 ≠ q.1) :=
      (List.pairwise_map).mp hndSorted
    have hlt := (hpw.and hne).imp
      (fun {p q} h => lt_of_le_of_ne (by simpa using h.1) h.2)
    rw [hM]
    exact (List.pairwise_map).mpr hlt
  refine ⟨hkeys, hcontents, hsorted, ?_, ?_, ?_⟩
  · rfl
  · show (rows.foldl step initAcc).missing.launch_date = _
    rw [foldl_step_missing_launch]
    simp [initAcc]
  · show (rows.foldl step initAcc).instockCounts.trueCount
        + (rows.foldl step initAcc).instockCounts.falseCount
        + (rows.foldl step initAcc).instockCounts.nullCount = rows.length
    rw [foldl_step_instock]
    simp [initAcc]

/-- Witness for Claim C5: on two rows whose months arrive as `"2024-02"`
then `"2024-01"`, both buckets exist and the emitted series is strictly
ascending by month key. -/
theorem monthly_series_spec_witness :
    (∃ b ∈ (computeAnalytics
        [⟨some "A", none, none, none, none, some "2024-02-10"⟩,
         ⟨some "B", none, none, none, none, some "2024-01-05"⟩]).monthly,
      b.month = "2024-01")
    ∧ (computeAnalytics
        [⟨some "A", none, none, none, none, some "2024-02-10"⟩,
         ⟨some "B", none, none, none, none, some "2024-01-05"⟩]).monthly.Pairwise
        (fun b1 b2 => b1.month < b2.month) := by
  have h := monthly_series_spec
    [⟨some "A", none, none, none, none, some "2024-02-10"⟩,
     ⟨some "B", none, none, none, none, some "2024-01-05"⟩]
    (by decide)
  constructor
  · exact (h.1 "2024-01").mpr
      ⟨⟨some "B", none, none, none, none, some "2024-01-05"⟩,
        by decide, "2024-01-05", rfl, by decide⟩
  · exact h.2.2.1

end CsvEngine
